import Mathlib

/-!
Verification of the terminal persisted-history cache
(`src/vs/workbench/contrib/terminal/common/history/history.ts`).

The file shallowly embeds `TerminalPersistedHistory<T>`: a bounded,
persisted LRU history cache.  The component's own code (the class body of
`history.ts`) is translated definition by definition.  The `LRUCache`
container it uses lives in `vs/base/common/map`, outside the sources at
hand, so its operations are modelled from the specification's description
of the history store (ordered map, bounded by a capacity limit; inserting
a new key at capacity evicts the least-recently-used entry; re-setting an
existing key updates the value and promotes it to most-recently-used;
lowering the limit evicts LRU entries down to the new bound).

Conventions of the embedding:
* the LRU order is kept as a list with the least-recently-used entry at
  the head and the most-recently-used entry at the tail — the iteration
  order of the map, which is also the order `_saveState` serializes and
  the order the `entries` getter yields;
* the durable key-value store is a function from string keys to stored
  values; the text stored under the entries key is abstracted by
  `RawPayload`: either text that `JSON.parse` rejects (including the empty
  string, which `_loadState` bails out on before parsing), a parse result
  that is falsy (`null`), or a well-formed serialized cache record;
* `Date.now()` is passed in as an explicit `now : Nat` argument;
* the configuration service's `getValue` result is passed in as an
  explicit `ConfigValue` (a JavaScript value classified by `typeof`);
  numeric configuration values are modelled as naturals;
* the event listeners registered in the constructor become functions from
  the event payload and the current state to the next state.
-/

/-- `Constants.DefaultHistoryLimit` from the source: the fallback history
limit. -/
def Constants.DefaultHistoryLimit : Nat := 100

/-- `StorageKeys.Keys` from the source (declared but unused by the class). -/
def StorageKeys.Keys : String := "terminal.history.keys"

/-- `StorageKeys.Entries` from the source. -/
def StorageKeys.Entries : String := "terminal.history.entries"

/-- `StorageKeys.Timestamp` from the source. -/
def StorageKeys.Timestamp : String := "terminal.history.timestamp"

/-- The storage key `` `${StorageKeys.Entries}.${storageDataKey}` `` used by
`_loadState`/`_saveState`. -/
def entriesStorageKey (storageDataKey : String) : String :=
  StorageKeys.Entries ++ "." ++ storageDataKey

/-- The storage key `` `${StorageKeys.Timestamp}.${storageDataKey}` `` used by
`_loadState`/`_saveState`. -/
def timestampStorageKey (storageDataKey : String) : String :=
  StorageKeys.Timestamp ++ "." ++ storageDataKey

/-- A JavaScript value returned by the configuration service's `getValue`,
classified the way `typeof` classifies it in `_getHistoryLimit`.  Numeric
values are modelled as naturals. -/
inductive ConfigValue where
  | num (n : Nat)
  | str (s : String)
  | nullValue
  | boolean (b : Bool)
deriving DecidableEq, Repr

/-- The text stored under the entries storage key, abstracted by what
`JSON.parse` makes of it in `_loadState`:
* `malformed text` — text `JSON.parse` throws on (this includes the empty
  string, which `_loadState` already bails out on via `raw.length === 0`);
* `jsonNull` — text parsing to a falsy value (`null`), failing the
  `if (serialized)` guard;
* `cache entries` — a well-formed `ISerializedCache` record
  `{"entries":[{"key":…,"value":…},…]}` listing the entries in the order
  they were serialized. -/
inductive RawPayload (T : Type) where
  | malformed (text : String)
  | jsonNull
  | cache (entries : List (String × T))
deriving DecidableEq, Repr

/-- A value held by the durable key-value store: either text (the entries
payload) or a number (the timestamp). -/
inductive StoredValue (T : Type) where
  | text (payload : RawPayload T)
  | num (n : Nat)
deriving DecidableEq, Repr

/-- The durable key-value store (the storage service's global scope),
as a mapping from keys to optionally present values. -/
def Store (T : Type) : Type := String → Option (StoredValue T)

/-- `storageService.get(key, scope)`: the stored text, or absent.  (The
keys this component reads with `get` only ever hold text.) -/
def Store.get (store : Store T) (key : String) : Option (RawPayload T) :=
  match store key with
  | some (.text payload) => some payload
  | _ => none

/-- `storageService.getNumber(key, scope, fallback)`: the stored number,
or the fallback. -/
def Store.getNumber (store : Store T) (key : String) (fallback : Nat) : Nat :=
  match store key with
  | some (.num n) => n
  | _ => fallback

/-- `storageService.store(key, value, scope, target)`: write a value under
a key. -/
def Store.put (store : Store T) (key : String) (value : StoredValue T) : Store T :=
  fun k => if k = key then some value else store k

/-- Modelled from the spec: trimming of the `LRUCache` (from
`vs/base/common/map`, not among the sources) after its limit may be
exceeded — "if current size exceeds the new bound, evicts LRU entries down
to the new bound".  Least-recently-used entries sit at the head of the
list, so eviction drops from the front until at most `limit` remain. -/
def lruCheckTrim (limit : Nat) (entries : List (String × T)) : List (String × T) :=
  if entries.length ≤ limit then entries else entries.drop (entries.length - limit)

/-- Modelled from the spec: `LRUCache.set` — "insertion of a new key when
at capacity evicts the least-recently-used entry; re-setting an existing
key updates its value and promotes it to most-recently-used".  The entry
for `k` (if any) is removed, the new pair is appended at the
most-recently-used end, and the cache is trimmed to its limit. -/
def lruSet (limit : Nat) (entries : List (String × T)) (k : String) (v : T) :
    List (String × T) :=
  lruCheckTrim limit (entries.filter (fun e => e.1 ≠ k) ++ [(k, v)])

/-- Modelled from the spec: `LRUCache.delete` — "deletes the entry if
present (no-op if absent)". -/
def lruDelete (entries : List (String × T)) (k : String) : List (String × T) :=
  entries.filter (fun e => e.1 ≠ k)

/-- The state of a `TerminalPersistedHistory<T>` instance.  Field names
follow the source.  `_entries` is the contents of the `LRUCache` in LRU-to-
MRU order (its iteration order); the cache's current limit is kept
alongside as `limit` (the `LRUCache.limit` property). -/
structure TerminalPersistedHistory (T : Type) where
  _storageDataKey : String
  _entries : List (String × T)
  limit : Nat
  _timestamp : Nat
  _isReady : Bool
  _isStale : Bool
deriving DecidableEq, Repr

/-- `_getHistoryLimit()`: the configured limit when the configuration
value is a number, `Constants.DefaultHistoryLimit` otherwise. -/
def TerminalPersistedHistory._getHistoryLimit (historyLimit : ConfigValue) : Nat :=
  match historyLimit with
  | .num n => n
  | _ => Constants.DefaultHistoryLimit

/-- The constructor: an empty cache sized by `_getHistoryLimit()` over the
given configuration value, not yet hydrated (`_isReady = false`,
`_isStale = true`, `_timestamp = 0`). -/
def TerminalPersistedHistory.construct (storageDataKey : String)
    (configValue : ConfigValue) : TerminalPersistedHistory T :=
  { _storageDataKey := storageDataKey
    _entries := []
    limit := TerminalPersistedHistory._getHistoryLimit configValue
    _timestamp := 0
    _isReady := false
    _isStale := true }

/-- `_loadState()`: read the timestamp (`getNumber`, fallback 0), then the
raw entries payload; bail out if it is absent, empty, unparsable or falsy;
otherwise `set` each serialized entry into the cache in serialized
order. -/
def TerminalPersistedHistory._loadState (st : TerminalPersistedHistory T)
    (store : Store T) : TerminalPersistedHistory T :=
  let st := { st with
    _timestamp := store.getNumber (timestampStorageKey st._storageDataKey) 0 }
  match store.get (entriesStorageKey st._storageDataKey) with
  | none => st
  | some (.malformed _) => st
  | some .jsonNull => st
  | some (.cache serialized) =>
    { st with
      _entries := serialized.foldl
        (fun acc entry => lruSet st.limit acc entry.1 entry.2) st._entries }

/-- `_saveState()`: serialize the cache contents in iteration order under
the entries key, then record `Date.now()` in `_timestamp` and store it
under the timestamp key. -/
def TerminalPersistedHistory._saveState (st : TerminalPersistedHistory T)
    (store : Store T) (now : Nat) : TerminalPersistedHistory T × Store T :=
  let store := store.put (entriesStorageKey st._storageDataKey)
    (.text (.cache st._entries))
  let st := { st with _timestamp := now }
  let store := store.put (timestampStorageKey st._storageDataKey) (.num now)
  (st, store)

/-- `_ensureUpToDate()`: hydrate once (`_loadState`) if not ready; then, if
stale, merely clear the stale flag (the `TODO: Resolve stale cache`
branch). -/
def TerminalPersistedHistory._ensureUpToDate (st : TerminalPersistedHistory T)
    (store : Store T) : TerminalPersistedHistory T :=
  let st := if st._isReady then st
    else { st._loadState store with _isReady := true }
  if st._isStale then { st with _isStale := false } else st

/-- The `entries` getter: ensure up to date, then yield the cache contents
in iteration order (returned together with the updated state). -/
def TerminalPersistedHistory.entries (st : TerminalPersistedHistory T)
    (store : Store T) : TerminalPersistedHistory T × List (String × T) :=
  let st := st._ensureUpToDate store
  (st, st._entries)

/-- `add(key, value)`: ensure up to date, `set` into the cache, save. -/
def TerminalPersistedHistory.add (st : TerminalPersistedHistory T)
    (store : Store T) (now : Nat) (key : String) (value : T) :
    TerminalPersistedHistory T × Store T :=
  let st := st._ensureUpToDate store
  let st := { st with _entries := lruSet st.limit st._entries key value }
  st._saveState store now

/-- `remove(key)`: ensure up to date, delete from the cache, save. -/
def TerminalPersistedHistory.remove (st : TerminalPersistedHistory T)
    (store : Store T) (now : Nat) (key : String) :
    TerminalPersistedHistory T × Store T :=
  let st := st._ensureUpToDate store
  let st := { st with _entries := lruDelete st._entries key }
  st._saveState store now

/-- `clear()`: ensure up to date, empty the cache, save. -/
def TerminalPersistedHistory.clear (st : TerminalPersistedHistory T)
    (store : Store T) (now : Nat) : TerminalPersistedHistory T × Store T :=
  let st := st._ensureUpToDate store
  let st := { st with _entries := [] }
  st._saveState store now

/-- The `onDidChangeConfiguration` listener from the constructor: when the
event affects the command-history setting, assign
`_entries.limit = _getHistoryLimit()` — the `LRUCache` limit setter stores
the new bound and trims LRU entries down to it (modelled from the spec's
resize semantics). -/
def TerminalPersistedHistory.onDidChangeConfiguration
    (st : TerminalPersistedHistory T) (affectsConfiguration : Bool)
    (configValue : ConfigValue) : TerminalPersistedHistory T :=
  if affectsConfiguration then
    let newLimit := TerminalPersistedHistory._getHistoryLimit configValue
    { st with limit := newLimit, _entries := lruCheckTrim newLimit st._entries }
  else st

/-- The `onDidChangeValue` listener from the constructor: mark the cache
stale unless the notified key equals the bare `StorageKeys.Timestamp`
constant (note: the constant, not the instance's suffixed timestamp
key). -/
def TerminalPersistedHistory.onDidChangeValue (st : TerminalPersistedHistory T)
    (key : String) : TerminalPersistedHistory T :=
  if key ≠ StorageKeys.Timestamp then { st with _isStale := true } else st

/-- A sequence of `add` calls, each given its own `Date.now()` value:
`ops` lists `(now, key, value)` triples. -/
def TerminalPersistedHistory.addMany (st : TerminalPersistedHistory T)
    (store : Store T) (ops : List (Nat × String × T)) :
    TerminalPersistedHistory T × Store T :=
  ops.foldl (fun p op => p.1.add p.2 op.1 op.2.1 op.2.2) (st, store)

theorem lruCheckTrim_eq_drop (limit : Nat) (l : List (String × T)) :
    lruCheckTrim limit l = l.drop (l.length - limit) := by
  unfold lruCheckTrim
  split
  · have h : l.length - limit = 0 := by omega
    rw [h, List.drop_zero]
  · rfl

theorem lruCheckTrim_of_length_le {limit : Nat} {l : List (String × T)}
    (h : l.length ≤ limit) : lruCheckTrim limit l = l := if_pos h

theorem length_lruCheckTrim (limit : Nat) (l : List (String × T)) :
    (lruCheckTrim limit l).length = min l.length limit := by
  rw [lruCheckTrim_eq_drop, List.length_drop]
  omega

theorem lruCheckTrim_sublist (limit : Nat) (l : List (String × T)) :
    (lruCheckTrim limit l).Sublist l := by
  rw [lruCheckTrim_eq_drop]
  exact List.drop_sublist _ _

theorem lruCheckTrim_idem_append (limit : Nat) (m l : List (String × T)) :
    lruCheckTrim limit (lruCheckTrim limit m ++ l) = lruCheckTrim limit (m ++ l) := by
  rcases le_or_lt m.length limit with h | h
  · rw [lruCheckTrim_of_length_le h]
  · rw [lruCheckTrim_eq_drop limit m, lruCheckTrim_eq_drop, lruCheckTrim_eq_drop,
      List.drop_append_eq_append_drop, List.drop_append_eq_append_drop,
      List.drop_drop]
    have hlen : (m.drop (m.length - limit)).length = limit := by
      rw [List.length_drop]; omega
    rw [hlen]
    congr 1
    · congr 1
      simp [List.length_append, hlen]
      omega
    · congr 1
      simp [List.length_append, hlen]
      omega

theorem length_lruSet_le (limit : Nat) (l : List (String × T)) (k : String) (v : T) :
    (lruSet limit l k v).length ≤ limit := by
  unfold lruSet
  rw [length_lruCheckTrim]
  omega

theorem not_mem_keys_filter (l : List (String × T)) (k : String) :
    k ∉ (l.filter (fun e => e.1 ≠ k)).map Prod.fst := by
  simp [List.mem_map, List.mem_filter]

theorem nodup_keys_lruSet {l : List (String × T)} (limit : Nat) (k : String) (v : T)
    (h : (l.map Prod.fst).Nodup) :
    ((lruSet limit l k v).map Prod.fst).Nodup := by
  have hsub : ((lruSet limit l k v).map Prod.fst).Sublist
      (((l.filter (fun e => e.1 ≠ k)) ++ [(k, v)]).map Prod.fst) :=
    (lruCheckTrim_sublist _ _).map _
  apply hsub.nodup
  rw [List.map_append, List.nodup_append]
  refine ⟨((List.filter_sublist l).map _).nodup h, List.nodup_singleton _, ?_⟩
  intro a ha hb
  simp at hb
  subst hb
  exact not_mem_keys_filter l a ha

theorem lruSet_of_not_mem {l : List (String × T)} {k : String} (limit : Nat) (v : T)
    (h : k ∉ l.map Prod.fst) :
    lruSet limit l k v = lruCheckTrim limit (l ++ [(k, v)]) := by
  have hf : l.filter (fun e => e.1 ≠ k) = l := by
    rw [List.filter_eq_self]
    intro e he
    have hk : e.1 ≠ k := fun hk => h (hk ▸ List.mem_map_of_mem Prod.fst he)
    simp [hk]
  unfold lruSet
  rw [hf]

theorem nodup_keys_foldl_lruSet (limit : Nat) (l : List (String × T)) :
    ∀ acc : List (String × T), (acc.map Prod.fst).Nodup →
      ((l.foldl (fun a e => lruSet limit a e.1 e.2) acc).map Prod.fst).Nodup := by
  induction l with
  | nil => intro acc h; simpa using h
  | cons e l ih =>
    intro acc h
    rw [List.foldl_cons]
    exact ih _ (nodup_keys_lruSet _ _ _ h)

theorem length_foldl_lruSet_le (limit : Nat) (l : List (String × T)) :
    ∀ acc : List (String × T), acc.length ≤ limit →
      (l.foldl (fun a e => lruSet limit a e.1 e.2) acc).length ≤ limit := by
  induction l with
  | nil => intro acc h; simpa using h
  | cons e l ih =>
    intro acc _
    rw [List.foldl_cons]
    exact ih _ (length_lruSet_le _ _ _ _)

theorem foldl_lruSet_eq (limit : Nat) (l : List (String × T)) :
    ∀ acc : List (String × T), acc.length ≤ limit →
      ((acc ++ l).map Prod.fst).Nodup →
      l.foldl (fun a e => lruSet limit a e.1 e.2) acc = lruCheckTrim limit (acc ++ l) := by
  induction l with
  | nil =>
    intro acc hlen _
    simp [lruCheckTrim_of_length_le hlen]
  | cons e l ih =>
    intro acc hlen hnd
    obtain ⟨k, v⟩ := e
    rw [List.foldl_cons]
    have hknotin : k ∉ acc.map Prod.fst := by
      intro hmem
      rw [List.map_append, List.nodup_append] at hnd
      exact hnd.2.2 hmem (by simp)
    have hset : lruSet limit acc k v = lruCheckTrim limit (acc ++ [(k, v)]) :=
      lruSet_of_not_mem limit v hknotin
    have hacc' : (lruCheckTrim limit (acc ++ [(k, v)])).length ≤ limit := by
      rw [length_lruCheckTrim]; omega
    have hsubkeys : ((lruCheckTrim limit (acc ++ [(k, v)]) ++ l).map Prod.fst).Sublist
        (((acc ++ [(k, v)]) ++ l).map Prod.fst) :=
      ((lruCheckTrim_sublist _ _).append_right l).map _
    have hnd' : ((lruCheckTrim limit (acc ++ [(k, v)]) ++ l).map Prod.fst).Nodup := by
      apply hsubkeys.nodup
      simpa using hnd
    rw [hset, ih _ hacc' hnd', lruCheckTrim_idem_append]
    simp

theorem _loadState_limit (st : TerminalPersistedHistory T) (store : Store T) :
    (st._loadState store).limit = st.limit := by
  unfold TerminalPersistedHistory._loadState
  simp only []
  split <;> rfl

theorem _loadState_storageDataKey (st : TerminalPersistedHistory T) (store : Store T) :
    (st._loadState store)._storageDataKey = st._storageDataKey := by
  unfold TerminalPersistedHistory._loadState
  simp only []
  split <;> rfl

theorem _loadState_isStale (st : TerminalPersistedHistory T) (store : Store T) :
    (st._loadState store)._isStale = st._isStale := by
  unfold TerminalPersistedHistory._loadState
  simp only []
  split <;> rfl

theorem _loadState_entries_of_cache (st : TerminalPersistedHistory T) (store : Store T)
    (l : List (String × T))
    (h : store.get (entriesStorageKey st._storageDataKey) = some (.cache l)) :
    (st._loadState store)._entries =
      l.foldl (fun acc e => lruSet st.limit acc e.1 e.2) st._entries := by
  unfold TerminalPersistedHistory._loadState
  simp only []
  split
  · rename_i heq
    rw [h] at heq
    cases heq
  · rename_i heq
    rw [h] at heq
    cases heq
  · rename_i heq
    rw [h] at heq
    cases heq
  · rename_i serialized heq
    rw [h] at heq
    cases heq
    rfl

theorem _loadState_isReady (st : TerminalPersistedHistory T) (store : Store T) :
    (st._loadState store)._isReady = st._isReady := by
  unfold TerminalPersistedHistory._loadState
  simp only []
  split <;> rfl

theorem _loadState_entries_of_not_cache (st : TerminalPersistedHistory T) (store : Store T)
    (h : ∀ l : List (String × T),
      store.get (entriesStorageKey st._storageDataKey) ≠ some (.cache l)) :
    (st._loadState store)._entries = st._entries := by
  unfold TerminalPersistedHistory._loadState
  simp only []
  split
  · rfl
  · rfl
  · rfl
  · rename_i serialized heq
    exact absurd heq (h serialized)

theorem _saveState_fst (st : TerminalPersistedHistory T) (store : Store T) (now : Nat) :
    (st._saveState store now).1 = { st with _timestamp := now } := rfl

theorem _saveState_snd (st : TerminalPersistedHistory T) (store : Store T) (now : Nat) :
    (st._saveState store now).2 =
      (store.put (entriesStorageKey st._storageDataKey)
        (.text (.cache st._entries))).put
        (timestampStorageKey st._storageDataKey) (.num now) := rfl

theorem _ensureUpToDate_of_ready (st : TerminalPersistedHistory T) (store : Store T)
    (h : st._isReady = true) :
    st._ensureUpToDate store =
      if st._isStale then { st with _isStale := false } else st := by
  unfold TerminalPersistedHistory._ensureUpToDate
  simp [h]

theorem _ensureUpToDate_entries_of_ready (st : TerminalPersistedHistory T) (store : Store T)
    (h : st._isReady = true) :
    (st._ensureUpToDate store)._entries = st._entries := by
  rw [_ensureUpToDate_of_ready st store h]
  split <;> rfl

theorem _ensureUpToDate_limit (st : TerminalPersistedHistory T) (store : Store T) :
    (st._ensureUpToDate store).limit = st.limit := by
  unfold TerminalPersistedHistory._ensureUpToDate
  simp only []
  split <;> split <;> simp [_loadState_limit]

theorem _ensureUpToDate_storageDataKey (st : TerminalPersistedHistory T) (store : Store T) :
    (st._ensureUpToDate store)._storageDataKey = st._storageDataKey := by
  unfold TerminalPersistedHistory._ensureUpToDate
  simp only []
  split <;> split <;> simp [_loadState_storageDataKey]

theorem _loadState_length_le (st : TerminalPersistedHistory T) (store : Store T)
    (h : st._entries.length ≤ st.limit) :
    (st._loadState store)._entries.length ≤ st.limit := by
  cases hg : store.get (entriesStorageKey st._storageDataKey) with
  | none =>
    rw [_loadState_entries_of_not_cache st store (by simp [hg])]
    exact h
  | some p =>
    cases p with
    | malformed s =>
      rw [_loadState_entries_of_not_cache st store (by simp [hg])]
      exact h
    | jsonNull =>
      rw [_loadState_entries_of_not_cache st store (by simp [hg])]
      exact h
    | cache l =>
      rw [_loadState_entries_of_cache st store l hg]
      exact length_foldl_lruSet_le _ _ _ h

theorem _loadState_nodup (st : TerminalPersistedHistory T) (store : Store T)
    (h : (st._entries.map Prod.fst).Nodup) :
    ((st._loadState store)._entries.map Prod.fst).Nodup := by
  cases hg : store.get (entriesStorageKey st._storageDataKey) with
  | none =>
    rw [_loadState_entries_of_not_cache st store (by simp [hg])]
    exact h
  | some p =>
    cases p with
    | malformed s =>
      rw [_loadState_entries_of_not_cache st store (by simp [hg])]
      exact h
    | jsonNull =>
      rw [_loadState_entries_of_not_cache st store (by simp [hg])]
      exact h
    | cache l =>
      rw [_loadState_entries_of_cache st store l hg]
      exact nodup_keys_foldl_lruSet _ _ _ h

theorem _ensureUpToDate_length_le (st : TerminalPersistedHistory T) (store : Store T)
    (h : st._entries.length ≤ st.limit) :
    (st._ensureUpToDate store)._entries.length ≤ st.limit := by
  unfold TerminalPersistedHistory._ensureUpToDate
  simp only []
  split <;> split <;> simp [_loadState_length_le st store h, h]

theorem _ensureUpToDate_nodup (st : TerminalPersistedHistory T) (store : Store T)
    (h : (st._entries.map Prod.fst).Nodup) :
    ((st._ensureUpToDate store)._entries.map Prod.fst).Nodup := by
  unfold TerminalPersistedHistory._ensureUpToDate
  simp only []
  split <;> split <;> simp [_loadState_nodup st store h, h]

theorem add_fst (st : TerminalPersistedHistory T) (store : Store T) (now : Nat)
    (k : String) (v : T) :
    (st.add store now k v).1 =
      { st._ensureUpToDate store with
        _entries := lruSet (st._ensureUpToDate store).limit
          (st._ensureUpToDate store)._entries k v
        _timestamp := now } := rfl

theorem add_snd (st : TerminalPersistedHistory T) (store : Store T) (now : Nat)
    (k : String) (v : T) :
    (st.add store now k v).2 =
      (store.put (entriesStorageKey (st._ensureUpToDate store)._storageDataKey)
        (.text (.cache (lruSet (st._ensureUpToDate store).limit
          (st._ensureUpToDate store)._entries k v)))).put
        (timestampStorageKey (st._ensureUpToDate store)._storageDataKey) (.num now) := rfl

theorem _ensureUpToDate_isReady (st : TerminalPersistedHistory T) (store : Store T) :
    (st._ensureUpToDate store)._isReady = true := by
  unfold TerminalPersistedHistory._ensureUpToDate
  simp only []
  split <;> split <;> simp_all [_loadState_isReady]

theorem add_limit (st : TerminalPersistedHistory T) (store : Store T) (now : Nat)
    (k : String) (v : T) :
    (st.add store now k v).1.limit = st.limit := by
  rw [add_fst]
  exact _ensureUpToDate_limit st store

theorem add_storageDataKey (st : TerminalPersistedHistory T) (store : Store T) (now : Nat)
    (k : String) (v : T) :
    (st.add store now k v).1._storageDataKey = st._storageDataKey := by
  rw [add_fst]
  exact _ensureUpToDate_storageDataKey st store

theorem add_length_le (st : TerminalPersistedHistory T) (store : Store T) (now : Nat)
    (k : String) (v : T) :
    (st.add store now k v).1._entries.length ≤ st.limit := by
  rw [add_fst]
  calc (lruSet (st._ensureUpToDate store).limit (st._ensureUpToDate store)._entries k v).length
      ≤ (st._ensureUpToDate store).limit := length_lruSet_le _ _ _ _
    _ = st.limit := _ensureUpToDate_limit st store

theorem add_nodup (st : TerminalPersistedHistory T) (store : Store T) (now : Nat)
    (k : String) (v : T) (h : (st._entries.map Prod.fst).Nodup) :
    ((st.add store now k v).1._entries.map Prod.fst).Nodup := by
  rw [add_fst]
  exact nodup_keys_lruSet _ _ _ (_ensureUpToDate_nodup st store h)

theorem addMany_nil (st : TerminalPersistedHistory T) (store : Store T) :
    st.addMany store [] = (st, store) := rfl

theorem addMany_cons (st : TerminalPersistedHistory T) (store : Store T)
    (op : Nat × String × T) (ops : List (Nat × String × T)) :
    st.addMany store (op :: ops) =
      TerminalPersistedHistory.addMany (st.add store op.1 op.2.1 op.2.2).1
        (st.add store op.1 op.2.1 op.2.2).2 ops := rfl

theorem addMany_limit (ops : List (Nat × String × T)) :
    ∀ (st : TerminalPersistedHistory T) (store : Store T),
      (st.addMany store ops).1.limit = st.limit := by
  induction ops with
  | nil => intro st store; rfl
  | cons op ops ih =>
    intro st store
    rw [addMany_cons, ih, add_limit]

theorem addMany_storageDataKey (ops : List (Nat × String × T)) :
    ∀ (st : TerminalPersistedHistory T) (store : Store T),
      (st.addMany store ops).1._storageDataKey = st._storageDataKey := by
  induction ops with
  | nil => intro st store; rfl
  | cons op ops ih =>
    intro st store
    rw [addMany_cons, ih, add_storageDataKey]

theorem addMany_length_le (ops : List (Nat × String × T)) :
    ∀ (st : TerminalPersistedHistory T) (store : Store T),
      st._entries.length ≤ st.limit →
      (st.addMany store ops).1._entries.length ≤ st.limit := by
  induction ops with
  | nil => intro st store h; exact h
  | cons op ops ih =>
    intro st store h
    rw [addMany_cons]
    have h3 := add_limit st store op.1 op.2.1 op.2.2
    have h4 := ih (st.add store op.1 op.2.1 op.2.2).1 (st.add store op.1 op.2.1 op.2.2).2
      (by rw [h3]; exact add_length_le st store op.1 op.2.1 op.2.2)
    rw [h3] at h4
    exact h4

theorem addMany_nodup (ops : List (Nat × String × T)) :
    ∀ (st : TerminalPersistedHistory T) (store : Store T),
      (st._entries.map Prod.fst).Nodup →
      ((st.addMany store ops).1._entries.map Prod.fst).Nodup := by
  induction ops with
  | nil => intro st store h; exact h
  | cons op ops ih =>
    intro st store h
    rw [addMany_cons]
    exact ih _ _ (add_nodup st store op.1 op.2.1 op.2.2 h)

theorem timestampStorageKey_ne_entriesStorageKey (d : String) :
    timestampStorageKey d ≠ entriesStorageKey d := by
  intro h
  have hlen := congrArg String.length h
  unfold timestampStorageKey entriesStorageKey StorageKeys.Timestamp StorageKeys.Entries at hlen
  rw [String.length_append, String.length_append, String.length_append,
    String.length_append] at hlen
  have h1 : ("terminal.history.timestamp" : String).length = 26 := rfl
  have h2 : ("terminal.history.entries" : String).length = 24 := rfl
  have h3 : ("." : String).length = 1 := rfl
  rw [h1, h2, h3] at hlen
  omega

theorem add_store_entriesKey (st : TerminalPersistedHistory T) (store : Store T)
    (now : Nat) (k : String) (v : T) :
    (st.add store now k v).2 (entriesStorageKey st._storageDataKey) =
      some (.text (.cache (st.add store now k v).1._entries)) := by
  rw [add_snd, add_fst, _ensureUpToDate_storageDataKey]
  unfold Store.put
  rw [if_neg (Ne.symm (timestampStorageKey_ne_entriesStorageKey st._storageDataKey)),
    if_pos rfl]

theorem addMany_store_entriesKey (ops : List (Nat × String × T)) :
    ∀ (st : TerminalPersistedHistory T) (store : Store T), ops ≠ [] →
      (st.addMany store ops).2 (entriesStorageKey st._storageDataKey) =
        some (.text (.cache (st.addMany store ops).1._entries)) := by
  induction ops with
  | nil => intro st store h; exact absurd rfl h
  | cons op ops ih =>
    intro st store _
    rcases ops with _ | ⟨op2, ops⟩
    · rw [addMany_cons, addMany_nil]
      exact add_store_entriesKey st store op.1 op.2.1 op.2.2
    · rw [addMany_cons]
      have h := ih (st.add store op.1 op.2.1 op.2.2).1 (st.add store op.1 op.2.1 op.2.2).2
        (by simp)
      rw [add_storageDataKey] at h
      exact h

theorem filter_ne_of_not_mem_keys {l : List (String × T)} {k : String}
    (h : k ∉ l.map Prod.fst) : l.filter (fun e => e.1 ≠ k) = l := by
  rw [List.filter_eq_self]
  intro e he
  have hk : e.1 ≠ k := fun hk => h (hk ▸ List.mem_map_of_mem Prod.fst he)
  simp [hk]

theorem lruDelete_of_not_mem {l : List (String × T)} {k : String}
    (h : k ∉ l.map Prod.fst) : lruDelete l k = l :=
  filter_ne_of_not_mem_keys h

theorem remove_fst (st : TerminalPersistedHistory T) (store : Store T) (now : Nat)
    (k : String) :
    (st.remove store now k).1 =
      { st._ensureUpToDate store with
        _entries := lruDelete (st._ensureUpToDate store)._entries k
        _timestamp := now } := rfl

theorem remove_snd (st : TerminalPersistedHistory T) (store : Store T) (now : Nat)
    (k : String) :
    (st.remove store now k).2 =
      (store.put (entriesStorageKey (st._ensureUpToDate store)._storageDataKey)
        (.text (.cache (lruDelete (st._ensureUpToDate store)._entries k)))).put
        (timestampStorageKey (st._ensureUpToDate store)._storageDataKey) (.num now) := rfl

theorem _ensureUpToDate_entries_of_not_ready (st : TerminalPersistedHistory T)
    (store : Store T) (h : st._isReady = false) :
    (st._ensureUpToDate store)._entries = (st._loadState store)._entries := by
  unfold TerminalPersistedHistory._ensureUpToDate
  rw [h]
  simp only [Bool.false_eq_true, if_false]
  split <;> rfl

theorem construct_storageDataKey (domain : String) (cfg : ConfigValue) :
    (TerminalPersistedHistory.construct domain cfg : TerminalPersistedHistory T)._storageDataKey
      = domain := rfl

theorem construct_limit (domain : String) (cfg : ConfigValue) :
    (TerminalPersistedHistory.construct domain cfg : TerminalPersistedHistory T).limit
      = TerminalPersistedHistory._getHistoryLimit cfg := rfl

theorem construct_entries_nil (domain : String) (cfg : ConfigValue) :
    (TerminalPersistedHistory.construct domain cfg : TerminalPersistedHistory T)._entries
      = [] := rfl

theorem construct_isReady (domain : String) (cfg : ConfigValue) :
    (TerminalPersistedHistory.construct domain cfg : TerminalPersistedHistory T)._isReady
      = false := rfl

theorem entries_of_construct (domain : String) (cfg : ConfigValue) (store : Store T) :
    ((TerminalPersistedHistory.construct domain cfg).entries store).2 =
      ((TerminalPersistedHistory.construct domain cfg : TerminalPersistedHistory T)._loadState
        store)._entries := by
  unfold TerminalPersistedHistory.entries
  simp only []
  exact _ensureUpToDate_entries_of_not_ready _ store (construct_isReady domain cfg)

/-- C6: a non-numeric history-limit configuration value (`null`, a string, a
boolean) makes the instance use exactly 100 as its limit; a numeric value is
used as the limit directly. -/
theorem c6_non_numeric_config_defaults_limit_100 (T : Type) (domain : String) :
    ((TerminalPersistedHistory.construct domain ConfigValue.nullValue :
        TerminalPersistedHistory T).limit = 100)
    ∧ (∀ s : String, (TerminalPersistedHistory.construct domain (ConfigValue.str s) :
        TerminalPersistedHistory T).limit = 100)
    ∧ (∀ b : Bool, (TerminalPersistedHistory.construct domain (ConfigValue.boolean b) :
        TerminalPersistedHistory T).limit = 100)
    ∧ (∀ n : Nat, (TerminalPersistedHistory.construct domain (ConfigValue.num n) :
        TerminalPersistedHistory T).limit = n) :=
  ⟨rfl, fun _ => rfl, fun _ => rfl, fun _ => rfl⟩

/-- C8: running the ensure-up-to-date step on a hydrated instance with the
stale flag set only clears the stale flag: the resulting state is the old
state with `_isStale := false` — entries, limit and timestamp untouched,
and no reload happens. -/
theorem c8_ensure_up_to_date_only_clears_stale_flag (T : Type) (st : TerminalPersistedHistory T) (store : Store T)
    (hready : st._isReady = true) (hstale : st._isStale = true) :
    st._ensureUpToDate store = { st with _isStale := false } := by
  rw [_ensureUpToDate_of_ready st store hready, if_pos hstale]

/-- C2: divergence from the claim.  The claim says a storage change
notification carrying the instance own timestamp key (the timestamp key
suffixed with the instance domain name) does not set the stale flag; but
the listener compares against the bare `StorageKeys.Timestamp` constant, so
for a `commands` instance that is not stale the notified key
`terminal.history.timestamp.commands` — the very key `_saveState` writes —
flips the stale flag from `false` to `true`. -/
theorem c2_stale_flag_set_for_own_timestamp_key :
    ({ _storageDataKey := "commands", _entries := [("a", 1)], limit := 100,
        _timestamp := 7, _isReady := true, _isStale := false } :
      TerminalPersistedHistory Nat)._isStale = false ∧
    (({ _storageDataKey := "commands", _entries := [("a", 1)], limit := 100,
        _timestamp := 7, _isReady := true, _isStale := false } :
      TerminalPersistedHistory Nat).onDidChangeValue
      (timestampStorageKey
        ({ _storageDataKey := "commands", _entries := [("a", 1)], limit := 100,
            _timestamp := 7, _isReady := true, _isStale := false } :
          TerminalPersistedHistory Nat)._storageDataKey))._isStale = true := by
  exact ⟨rfl, by decide⟩

/-- C7: when a configuration change lowers the limit to a value at most the
current entry count, the resize keeps the new limit as bound and evicts
least-recently-used entries (the front of the recency order) until exactly
the new limit remain, keeping the most recently used ones. -/
theorem c7_lower_limit_evicts_down_to_new_bound (T : Type) (st : TerminalPersistedHistory T) (cfg : ConfigValue)
    (h : TerminalPersistedHistory._getHistoryLimit cfg ≤ st._entries.length) :
    (st.onDidChangeConfiguration true cfg).limit
      = TerminalPersistedHistory._getHistoryLimit cfg ∧
    (st.onDidChangeConfiguration true cfg)._entries
      = st._entries.drop (st._entries.length - TerminalPersistedHistory._getHistoryLimit cfg) ∧
    (st.onDidChangeConfiguration true cfg)._entries.length
      = TerminalPersistedHistory._getHistoryLimit cfg := by
  refine ⟨rfl, ?_, ?_⟩
  · show lruCheckTrim (TerminalPersistedHistory._getHistoryLimit cfg) st._entries = _
    exact lruCheckTrim_eq_drop _ _
  · show (lruCheckTrim (TerminalPersistedHistory._getHistoryLimit cfg) st._entries).length = _
    rw [length_lruCheckTrim]
    omega

/-- C5: if the payload under the entries key is absent (or not text), or is
text that is empty or unparsable as JSON, hydration of a fresh instance
produces an empty in-memory cache; no error is raised — the embedded
`_loadState` is total. -/
theorem c5_malformed_or_absent_payload_hydrates_empty (T : Type) (domain : String) (cfg : ConfigValue) (store : Store T)
    (h : store.get (entriesStorageKey domain) = none ∨
      ∃ s : String, store.get (entriesStorageKey domain) = some (.malformed s)) :
    ((TerminalPersistedHistory.construct domain cfg).entries store).2 = [] := by
  rw [entries_of_construct]
  rw [_loadState_entries_of_not_cache]
  · exact construct_entries_nil domain cfg
  · rw [construct_storageDataKey]
    intro l hl
    rcases h with h | ⟨s, h⟩ <;> rw [h] at hl <;> cases hl

/-- C9: removing a key not present in a hydrated instance map leaves the
entries (set and recency order) unchanged and raises no error, and still
persists like any other mutation: the unchanged entries are written under
the entries key and the current time under the timestamp key. -/
theorem c9_remove_absent_key_noop_and_persists (T : Type) (st : TerminalPersistedHistory T) (store : Store T)
    (now : Nat) (k : String) (hready : st._isReady = true)
    (habs : k ∉ st._entries.map Prod.fst) :
    (st.remove store now k).1._entries = st._entries ∧
    (st.remove store now k).2 (entriesStorageKey st._storageDataKey) =
      some (.text (.cache st._entries)) ∧
    (st.remove store now k).2 (timestampStorageKey st._storageDataKey) =
      some (.num now) := by
  have hens : (st._ensureUpToDate store)._entries = st._entries :=
    _ensureUpToDate_entries_of_ready st store hready
  have hdel : lruDelete (st._ensureUpToDate store)._entries k = st._entries := by
    rw [hens]
    exact lruDelete_of_not_mem habs
  refine ⟨?_, ?_, ?_⟩
  · rw [remove_fst]
    exact hdel
  · rw [remove_snd, _ensureUpToDate_storageDataKey, hdel]
    unfold Store.put
    rw [if_neg (Ne.symm (timestampStorageKey_ne_entriesStorageKey _)), if_pos rfl]
  · rw [remove_snd, _ensureUpToDate_storageDataKey]
    unfold Store.put
    rw [if_pos rfl]

/-- C1: over every sequence of `add` calls the in-memory map never holds
more than the configured limit of entries; and when an `add` of a new key
hits a full cache, the entry evicted is the least recently touched one
(the head of the recency order). -/
theorem c1_add_sequences_bounded_and_evict_lru (T : Type) :
    (∀ (st : TerminalPersistedHistory T) (store : Store T)
        (ops : List (Nat × String × T)),
      st._entries.length ≤ st.limit →
      (st.addMany store ops).1._entries.length ≤ st.limit)
    ∧ (∀ (st : TerminalPersistedHistory T) (store : Store T) (now : Nat)
        (k : String) (v : T),
      st._isReady = true → st._entries.length = st.limit → 0 < st.limit →
      k ∉ st._entries.map Prod.fst →
      (st.add store now k v).1._entries = st._entries.tail ++ [(k, v)]) := by
  constructor
  · intro st store ops h
    exact addMany_length_le ops st store h
  · intro st store now k v hready hfull hpos habs
    rw [add_fst]
    show lruSet (st._ensureUpToDate store).limit (st._ensureUpToDate store)._entries k v = _
    rw [_ensureUpToDate_limit, _ensureUpToDate_entries_of_ready st store hready]
    rw [lruSet_of_not_mem _ v habs, lruCheckTrim_eq_drop]
    have hlen : (st._entries ++ [(k, v)]).length - st.limit = 1 := by
      simp [hfull]
    rw [hlen, List.drop_append_eq_append_drop]
    have h1 : 1 - st._entries.length = 0 := by omega
    rw [h1, List.drop_zero, List.drop_one]

/-- C10: when the persisted record holds more (distinct-key) entries than
the instance limit, hydration inserts them in serialized order into the
bounded map, so exactly the last `limit` entries of the record survive and
the at-most-limit invariant holds immediately after first load. -/
theorem c10_overlong_record_keeps_last_limit_entries (T : Type) (domain : String) (cfg : ConfigValue) (store : Store T)
    (l : List (String × T))
    (hstore : store.get (entriesStorageKey domain) = some (.cache l))
    (hnd : (l.map Prod.fst).Nodup)
    (hlen : TerminalPersistedHistory._getHistoryLimit cfg < l.length) :
    ((TerminalPersistedHistory.construct domain cfg).entries store).2 =
      l.drop (l.length - TerminalPersistedHistory._getHistoryLimit cfg) ∧
    ((TerminalPersistedHistory.construct domain cfg).entries store).2.length =
      TerminalPersistedHistory._getHistoryLimit cfg := by
  have hload : ((TerminalPersistedHistory.construct domain cfg :
      TerminalPersistedHistory T)._loadState store)._entries = lruCheckTrim
      (TerminalPersistedHistory._getHistoryLimit cfg) l := by
    rw [_loadState_entries_of_cache _ store l (by rw [construct_storageDataKey]; exact hstore)]
    rw [construct_entries_nil, construct_limit]
    have := foldl_lruSet_eq (TerminalPersistedHistory._getHistoryLimit cfg) l []
      (by simp) (by simpa using hnd)
    simpa using this
  constructor
  · rw [entries_of_construct, hload, lruCheckTrim_eq_drop]
  · rw [entries_of_construct, hload, length_lruCheckTrim]
    omega

theorem add_isReady (st : TerminalPersistedHistory T) (store : Store T) (now : Nat)
    (k : String) (v : T) : (st.add store now k v).1._isReady = true := by
  rw [add_fst]
  exact _ensureUpToDate_isReady st store

theorem entries_of_ready (st : TerminalPersistedHistory T) (store : Store T)
    (h : st._isReady = true) : (st.entries store).2 = st._entries := by
  unfold TerminalPersistedHistory.entries
  simp only []
  exact _ensureUpToDate_entries_of_ready st store h

theorem lruSet_eq_drop_append (limit : Nat) (l : List (String × T)) (k : String) (v : T)
    (hlim : 0 < limit) :
    lruSet limit l k v =
      (l.filter (fun e => e.1 ≠ k)).drop
        ((l.filter (fun e => e.1 ≠ k)).length + 1 - limit) ++ [(k, v)] := by
  unfold lruSet
  rw [lruCheckTrim_eq_drop, List.drop_append_eq_append_drop]
  have hl : (l.filter (fun e => e.1 ≠ k) ++ [(k, v)]).length
      = (l.filter (fun e => e.1 ≠ k)).length + 1 := by simp
  rw [hl]
  have h2 : (l.filter (fun e => e.1 ≠ k)).length + 1 - limit
      - (l.filter (fun e => e.1 ≠ k)).length = 0 := by omega
  rw [h2, List.drop_zero]

theorem lruSet_set_again (limit : Nat) (D : List (String × T)) (k : String) (v v2 : T)
    (hD : ∀ e ∈ D, e.1 ≠ k) (hlen : D.length + 1 ≤ limit) :
    lruSet limit (D ++ [(k, v)]) k v2 = D ++ [(k, v2)] := by
  unfold lruSet
  have h1 : D.filter (fun e => e.1 ≠ k) = D :=
    List.filter_eq_self.mpr (fun e he => by simp [hD e he])
  have h2 : ([(k, v)] : List (String × T)).filter (fun e => e.1 ≠ k) = [] := by simp
  rw [List.filter_append, h1, h2, List.append_nil,
    lruCheckTrim_of_length_le (by simpa using hlen)]

/-- C4: round-trip.  After any nonempty sequence of `add` mutations on a
fresh instance, constructing a second fresh instance over the same domain
name, the same configuration and the resulting durable store and reading
its entries reproduces exactly the key-value entries of the mutated
instance, in the same recency order. -/
theorem c4_round_trip_reproduces_entries (T : Type) (domain : String) (cfg : ConfigValue) (store : Store T)
    (ops : List (Nat × String × T)) (hne : ops ≠ []) :
    ((TerminalPersistedHistory.construct domain cfg).entries
      ((TerminalPersistedHistory.construct domain cfg :
        TerminalPersistedHistory T).addMany store ops).2).2 =
    ((TerminalPersistedHistory.construct domain cfg :
      TerminalPersistedHistory T).addMany store ops).1._entries := by
  have hraw := addMany_store_entriesKey ops
    (TerminalPersistedHistory.construct domain cfg) store hne
  rw [construct_storageDataKey] at hraw
  have hget : Store.get ((TerminalPersistedHistory.construct domain cfg :
      TerminalPersistedHistory T).addMany store ops).2 (entriesStorageKey domain)
      = some (.cache ((TerminalPersistedHistory.construct domain cfg :
        TerminalPersistedHistory T).addMany store ops).1._entries) := by
    unfold Store.get
    rw [hraw]
  have hlimit : ((TerminalPersistedHistory.construct domain cfg :
      TerminalPersistedHistory T).addMany store ops).1._entries.length
      ≤ TerminalPersistedHistory._getHistoryLimit cfg := by
    have h := addMany_length_le ops (TerminalPersistedHistory.construct domain cfg) store
      (by rw [construct_entries_nil]; simp)
    rwa [construct_limit] at h
  have hnd : (((TerminalPersistedHistory.construct domain cfg :
      TerminalPersistedHistory T).addMany store ops).1._entries.map Prod.fst).Nodup := by
    apply addMany_nodup
    rw [construct_entries_nil]
    simp
  rw [entries_of_construct]
  rw [_loadState_entries_of_cache _ _ _ (by rw [construct_storageDataKey]; exact hget)]
  rw [construct_entries_nil, construct_limit]
  have hfold := foldl_lruSet_eq (TerminalPersistedHistory._getHistoryLimit cfg)
    (((TerminalPersistedHistory.construct domain cfg :
      TerminalPersistedHistory T).addMany store ops).1._entries) []
    (by simp) (by simpa using hnd)
  rw [List.nil_append] at hfold
  rw [hfold, lruCheckTrim_of_length_le hlimit]

/-- C3: `add(k, v)` followed by reading `entries` yields a sequence
containing `(k, v)`; a subsequent `add(k, v2)` stores `v2` as the single
value for `k`, moves `k` to the most-recently-used position (the tail of
the recency order), and leaves the entry count unchanged. -/
theorem c3_add_then_entries_contains_and_readd_promotes (T : Type) (st : TerminalPersistedHistory T) (store : Store T)
    (now now2 : Nat) (k : String) (v v2 : T) (hlim : 0 < st.limit) :
    (k, v) ∈ ((st.add store now k v).1.entries (st.add store now k v).2).2 ∧
    ((st.add store now k v).1.add (st.add store now k v).2 now2 k v2).1._entries.getLast?
      = some (k, v2) ∧
    ((st.add store now k v).1.add (st.add store now k v).2 now2 k v2).1._entries.length
      = (st.add store now k v).1._entries.length ∧
    ((st.add store now k v).1.add (st.add store now k v).2 now2 k v2).1._entries.filter
      (fun e => e.1 = k) = [(k, v2)] := by
  have hLpos : 0 < (st._ensureUpToDate store).limit := by
    rw [_ensureUpToDate_limit]
    exact hlim
  have h1 : (st.add store now k v).1._entries =
      ((st._ensureUpToDate store)._entries.filter (fun e => e.1 ≠ k)).drop
        (((st._ensureUpToDate store)._entries.filter (fun e => e.1 ≠ k)).length + 1
          - (st._ensureUpToDate store).limit) ++ [(k, v)] := by
    rw [add_fst]
    exact lruSet_eq_drop_append _ _ k v hLpos
  have hD : ∀ e ∈ ((st._ensureUpToDate store)._entries.filter (fun e => e.1 ≠ k)).drop
      (((st._ensureUpToDate store)._entries.filter (fun e => e.1 ≠ k)).length + 1
        - (st._ensureUpToDate store).limit), e.1 ≠ k := by
    intro e he
    have hmem := List.mem_of_mem_drop he
    have := List.of_mem_filter hmem
    simpa using this
  have hlen1 : (st.add store now k v).1._entries.length ≤ st.limit :=
    add_length_le st store now k v
  have hready1 : (st.add store now k v).1._isReady = true := add_isReady st store now k v
  have hens1 : ((st.add store now k v).1._ensureUpToDate (st.add store now k v).2)._entries
      = (st.add store now k v).1._entries :=
    _ensureUpToDate_entries_of_ready _ _ hready1
  have hlim1 : ((st.add store now k v).1._ensureUpToDate (st.add store now k v).2).limit
      = st.limit := by
    rw [_ensureUpToDate_limit]
    exact add_limit st store now k v
  have h2 : ((st.add store now k v).1.add (st.add store now k v).2 now2 k v2).1._entries
      = ((st._ensureUpToDate store)._entries.filter (fun e => e.1 ≠ k)).drop
        (((st._ensureUpToDate store)._entries.filter (fun e => e.1 ≠ k)).length + 1
          - (st._ensureUpToDate store).limit) ++ [(k, v2)] := by
    rw [add_fst]
    show lruSet ((st.add store now k v).1._ensureUpToDate (st.add store now k v).2).limit
      ((st.add store now k v).1._ensureUpToDate (st.add store now k v).2)._entries k v2 = _
    rw [hlim1, hens1, h1]
    apply lruSet_set_again _ _ _ _ _ hD
    have : (((st._ensureUpToDate store)._entries.filter (fun e => e.1 ≠ k)).drop
        (((st._ensureUpToDate store)._entries.filter (fun e => e.1 ≠ k)).length + 1
          - (st._ensureUpToDate store).limit) ++ [(k, v)]).length ≤ st.limit := by
      rw [← h1]
      exact hlen1
    simpa using this
  refine ⟨?_, ?_, ?_, ?_⟩
  · rw [entries_of_ready _ _ hready1, h1]
    exact List.mem_append_right _ (List.mem_singleton.mpr rfl)
  · rw [h2]
    simp
  · rw [h2, h1]
    simp
  · rw [h2, List.filter_append]
    have hfl : (((st._ensureUpToDate store)._entries.filter (fun e => e.1 ≠ k)).drop
        (((st._ensureUpToDate store)._entries.filter (fun e => e.1 ≠ k)).length + 1
          - (st._ensureUpToDate store).limit)).filter (fun e => e.1 = k) = [] := by
      rw [List.filter_eq_nil_iff]
      intro e he
      simp [hD e he]
    rw [hfl, List.nil_append]
    simp

theorem c1_add_sequences_bounded_and_evict_lru_witness :
    ((TerminalPersistedHistory.construct "commands" (ConfigValue.num 2) :
        TerminalPersistedHistory Nat).addMany (fun _ => none)
      [(1, "a", 1), (2, "b", 2), (3, "c", 3)]).1._entries.length ≤
      (TerminalPersistedHistory.construct "commands" (ConfigValue.num 2) :
        TerminalPersistedHistory Nat).limit ∧
    (({ _storageDataKey := "commands", _entries := [("a", 1), ("b", 2)], limit := 2,
        _timestamp := 0, _isReady := true, _isStale := false } :
      TerminalPersistedHistory Nat).add (fun _ => none) 3 "c" 3).1._entries
      = [("b", 2), ("c", 3)] :=
  ⟨(c1_add_sequences_bounded_and_evict_lru Nat).1 _ _ _ (by decide),
    (c1_add_sequences_bounded_and_evict_lru Nat).2 _ _ 3 "c" 3 rfl (by decide) (by decide) (by decide)⟩

theorem c3_add_then_entries_contains_and_readd_promotes_witness :
    ("a", 1) ∈ (((TerminalPersistedHistory.construct "commands" (ConfigValue.num 3) :
        TerminalPersistedHistory Nat).add (fun _ => none) 1 "a" 1).1.entries
      ((TerminalPersistedHistory.construct "commands" (ConfigValue.num 3) :
        TerminalPersistedHistory Nat).add (fun _ => none) 1 "a" 1).2).2 ∧
    (((TerminalPersistedHistory.construct "commands" (ConfigValue.num 3) :
        TerminalPersistedHistory Nat).add (fun _ => none) 1 "a" 1).1.add
      ((TerminalPersistedHistory.construct "commands" (ConfigValue.num 3) :
        TerminalPersistedHistory Nat).add (fun _ => none) 1 "a" 1).2
      2 "a" 9).1._entries.getLast? = some ("a", 9) ∧
    (((TerminalPersistedHistory.construct "commands" (ConfigValue.num 3) :
        TerminalPersistedHistory Nat).add (fun _ => none) 1 "a" 1).1.add
      ((TerminalPersistedHistory.construct "commands" (ConfigValue.num 3) :
        TerminalPersistedHistory Nat).add (fun _ => none) 1 "a" 1).2
      2 "a" 9).1._entries.length =
      ((TerminalPersistedHistory.construct "commands" (ConfigValue.num 3) :
        TerminalPersistedHistory Nat).add (fun _ => none) 1 "a" 1).1._entries.length ∧
    (((TerminalPersistedHistory.construct "commands" (ConfigValue.num 3) :
        TerminalPersistedHistory Nat).add (fun _ => none) 1 "a" 1).1.add
      ((TerminalPersistedHistory.construct "commands" (ConfigValue.num 3) :
        TerminalPersistedHistory Nat).add (fun _ => none) 1 "a" 1).2
      2 "a" 9).1._entries.filter (fun e => e.1 = "a") = [("a", 9)] :=
  c3_add_then_entries_contains_and_readd_promotes Nat (TerminalPersistedHistory.construct "commands" (ConfigValue.num 3))
    (fun _ => none) 1 2 "a" 1 9 (by decide)

theorem c4_round_trip_reproduces_entries_witness :
    ((TerminalPersistedHistory.construct "commands" (ConfigValue.num 3)).entries
      ((TerminalPersistedHistory.construct "commands" (ConfigValue.num 3) :
        TerminalPersistedHistory Nat).addMany (fun _ => none)
        [(1, "a", 1), (2, "b", 2)]).2).2 =
    ((TerminalPersistedHistory.construct "commands" (ConfigValue.num 3) :
      TerminalPersistedHistory Nat).addMany (fun _ => none)
      [(1, "a", 1), (2, "b", 2)]).1._entries :=
  c4_round_trip_reproduces_entries Nat "commands" (ConfigValue.num 3) (fun _ => none)
    [(1, "a", 1), (2, "b", 2)] (by decide)

theorem c5_malformed_or_absent_payload_hydrates_empty_witness :
    ((TerminalPersistedHistory.construct "commands" (ConfigValue.num 100)).entries
      (fun key => if key = entriesStorageKey "commands"
        then some (.text (.malformed "not json")) else (none : Option (StoredValue Nat)))).2
      = [] :=
  c5_malformed_or_absent_payload_hydrates_empty Nat "commands" (ConfigValue.num 100)
    (fun key => if key = entriesStorageKey "commands"
      then some (.text (.malformed "not json")) else none)
    (Or.inr ⟨"not json", by decide⟩)

theorem c7_lower_limit_evicts_down_to_new_bound_witness :
    (({ _storageDataKey := "commands", _entries := [("a", 1), ("b", 2), ("c", 3)],
        limit := 3, _timestamp := 0, _isReady := true, _isStale := false } :
      TerminalPersistedHistory Nat).onDidChangeConfiguration true
        (ConfigValue.num 1)).limit = 1 ∧
    (({ _storageDataKey := "commands", _entries := [("a", 1), ("b", 2), ("c", 3)],
        limit := 3, _timestamp := 0, _isReady := true, _isStale := false } :
      TerminalPersistedHistory Nat).onDidChangeConfiguration true
        (ConfigValue.num 1))._entries = [("c", 3)] ∧
    (({ _storageDataKey := "commands", _entries := [("a", 1), ("b", 2), ("c", 3)],
        limit := 3, _timestamp := 0, _isReady := true, _isStale := false } :
      TerminalPersistedHistory Nat).onDidChangeConfiguration true
        (ConfigValue.num 1))._entries.length = 1 :=
  c7_lower_limit_evicts_down_to_new_bound Nat
    ({ _storageDataKey := "commands", _entries := [("a", 1), ("b", 2), ("c", 3)],
       limit := 3, _timestamp := 0, _isReady := true, _isStale := false } :
      TerminalPersistedHistory Nat)
    (ConfigValue.num 1) (by decide)

theorem c8_ensure_up_to_date_only_clears_stale_flag_witness :
    ({ _storageDataKey := "commands", _entries := [("a", 1)], limit := 3,
        _timestamp := 7, _isReady := true, _isStale := true } :
      TerminalPersistedHistory Nat)._ensureUpToDate (fun _ => none) =
    { _storageDataKey := "commands", _entries := [("a", 1)], limit := 3,
      _timestamp := 7, _isReady := true, _isStale := false } :=
  c8_ensure_up_to_date_only_clears_stale_flag Nat
    ({ _storageDataKey := "commands", _entries := [("a", 1)], limit := 3,
       _timestamp := 7, _isReady := true, _isStale := true } :
      TerminalPersistedHistory Nat) (fun _ => none) rfl rfl

theorem c9_remove_absent_key_noop_and_persists_witness :
    (({ _storageDataKey := "commands", _entries := [("a", 1), ("b", 2)], limit := 3,
        _timestamp := 0, _isReady := true, _isStale := false } :
      TerminalPersistedHistory Nat).remove (fun _ => none) 5 "zzz").1._entries
      = [("a", 1), ("b", 2)] ∧
    (({ _storageDataKey := "commands", _entries := [("a", 1), ("b", 2)], limit := 3,
        _timestamp := 0, _isReady := true, _isStale := false } :
      TerminalPersistedHistory Nat).remove (fun _ => none) 5 "zzz").2
      (entriesStorageKey "commands")
      = some (.text (.cache [("a", 1), ("b", 2)])) ∧
    (({ _storageDataKey := "commands", _entries := [("a", 1), ("b", 2)], limit := 3,
        _timestamp := 0, _isReady := true, _isStale := false } :
      TerminalPersistedHistory Nat).remove (fun _ => none) 5 "zzz").2
      (timestampStorageKey "commands")
      = some (.num 5) :=
  c9_remove_absent_key_noop_and_persists Nat
    ({ _storageDataKey := "commands", _entries := [("a", 1), ("b", 2)],
       limit := 3, _timestamp := 0, _isReady := true, _isStale := false } :
      TerminalPersistedHistory Nat) (fun _ => none) 5 "zzz" rfl (by decide)

theorem c10_overlong_record_keeps_last_limit_entries_witness :
    ((TerminalPersistedHistory.construct "commands" (ConfigValue.num 2)).entries
      (fun key => if key = entriesStorageKey "commands"
        then some (.text (.cache [("a", 1), ("b", 2), ("c", 3), ("d", 4), ("e", 5)]))
        else (none : Option (StoredValue Nat)))).2
      = [("d", 4), ("e", 5)] ∧
    ((TerminalPersistedHistory.construct "commands" (ConfigValue.num 2)).entries
      (fun key => if key = entriesStorageKey "commands"
        then some (.text (.cache [("a", 1), ("b", 2), ("c", 3), ("d", 4), ("e", 5)]))
        else (none : Option (StoredValue Nat)))).2.length = 2 :=
  c10_overlong_record_keeps_last_limit_entries Nat "commands" (ConfigValue.num 2)
    (fun key => if key = entriesStorageKey "commands"
      then some (.text (.cache [("a", 1), ("b", 2), ("c", 3), ("d", 4), ("e", 5)]))
      else none)
    [("a", 1), ("b", 2), ("c", 3), ("d", 4), ("e", 5)]
    (by decide) (by decide) (by decide)
